import Mathlib

set_option maxHeartbeats 1000000
set_option maxRecDepth 10000

/-!
Shallow embedding of `src/main.py` of the local-next-month repository.

External collaborators (the HTTP layer, BeautifulSoup parsing, the
Spotify API and the `random` module) are modelled explicitly:
* page bodies stay `String`s; an environment-supplied `parse` function
  (standing for `BeautifulSoup(body, "html.parser")`) turns a body into
  a `Node` tree, over which the BeautifulSoup operations used by the
  source (`find_all`, `getText`, `.string`, `find(id=...)`,
  `find('a', class_='thumb')`, parent chains) are defined;
* the shelve database is a `List (String × String)` inside `ReqState`,
  together with two instrumentation counters: `reqCount` (number of
  `_request` invocations) and `fetchCount` (number of `requests.get`
  network calls);
* `spotify.search(..., type='artist', limit=50)` is an
  environment-supplied function from a query to the returned item list;
* `random.shuffle` is a Fisher–Yates pass driven by an explicit stream
  of random numbers, one per loop step, reduced modulo the step bound.

Python truthiness (`if not page`, `if uri`) is translated explicitly:
`None` and the empty string are falsy, everything else truthy.
-/

namespace LocalNextMonth

/-- Python `str(x)` applied to an `Optional[str]`: `str(None)` is the
four-character string `"None"`. -/
def pyStr : Option String → String
  | none => "None"
  | some s => s

/-- Python truthiness of an `Optional[str]` value: `None` and the empty
string are falsy, every other string is truthy. -/
def truthyOptStr : Option String → Bool
  | none => false
  | some s => decide (s ≠ "")

/-- Python `str.lower()` (ASCII case folding, character by character). -/
def pyLower (s : String) : String := ⟨s.data.map Char.toLower⟩

/-- Does `needle` occur as a prefix of `hay`? Helper for the substring
test performed by Python `str.find(...) != -1`. -/
def charsPref : List Char → List Char → Bool
  | [], _ => true
  | _ :: _, [] => false
  | c :: cs, d :: ds => c = d && charsPref cs ds

/-- Does `needle` occur as a contiguous substring of `hay`?  This is the
Boolean content of Python `hay.find(needle) != -1`. -/
def charsSub (needle : List Char) : List Char → Bool
  | [] => charsPref needle []
  | d :: ds => charsPref needle (d :: ds) || charsSub needle ds

/-- Python `needle in hay` / `hay.find(needle) != -1` on strings. -/
def strContainsSub (hay needle : String) : Bool :=
  charsSub needle.data hay.data

/-- HTML node: a text node, or an element with tag name, attributes and
children.  Parsed documents are rooted at a `[document]` element, as in
BeautifulSoup. -/
inductive Node where
  | text : String → Node
  | elem : String → List (String × String) → List Node → Node

mutual

/-- Concatenated text of all descendant text nodes, in document order
(BeautifulSoup `getText()`). -/
def Node.getText : Node → String
  | .text s => s
  | .elem _ _ cs => Node.getTextList cs

/-- Concatenated text of a list of sibling nodes, left to right. -/
def Node.getTextList : List Node → String
  | [] => ""
  | c :: cs => Node.getText c ++ Node.getTextList cs

end

mutual

/-- All element nodes of a subtree in document (pre-order) order, the
subtree root included when it is an element. -/
def Node.withSelfElems : Node → List Node
  | .text _ => []
  | .elem t a cs => Node.elem t a cs :: Node.withSelfElemsList cs

/-- All element nodes of a forest in document order. -/
def Node.withSelfElemsList : List Node → List Node
  | [] => []
  | c :: cs => Node.withSelfElems c ++ Node.withSelfElemsList cs

end

/-- All element descendants of a node, strictly below it, in document
order.  This is the search space of BeautifulSoup `find_all` / `find`
called on that node. -/
def Node.descElems : Node → List Node
  | .text _ => []
  | .elem _ _ cs => Node.withSelfElemsList cs

/-- Tag name of an element node (text nodes have none). -/
def Node.tagOf : Node → Option String
  | .text _ => none
  | .elem t _ _ => some t

/-- First value bound to `key` in an attribute list. -/
def lookupAttr : List (String × String) → String → Option String
  | [], _ => none
  | (k, v) :: rest, key => if k = key then some v else lookupAttr rest key

/-- BeautifulSoup `tag.get(key)`: attribute lookup on an element. -/
def Node.getAttr : Node → String → Option String
  | .text _, _ => none
  | .elem _ attrs _, key => lookupAttr attrs key

/-- BeautifulSoup `find_all(tag)` on a node: all element descendants
with the given tag name, in document order. -/
def Node.findAllTag (n : Node) (t : String) : List Node :=
  n.descElems.filter (fun c => c.tagOf = some t)

/-- BeautifulSoup `.string`: the text of the single child when the node
has exactly one child, recursively through single-child elements;
`none` otherwise. -/
def Node.nodeString : Node → Option String
  | .text s => some s
  | .elem _ _ [c] => Node.nodeString c
  | .elem _ _ _ => none

/-- A calendar date as used by the script (`datetime.date`). -/
structure Date where
  day : Nat
  month : Nat
  year : Nat
deriving DecidableEq

/-- Number of days of a month (`calendar.monthrange(year, month)[1]`),
with the Gregorian leap-year rule. -/
def monthrangeDays (year month : Nat) : Nat :=
  if month = 2 then
    if (year % 4 = 0 && year % 100 ≠ 0) || year % 400 = 0 then 29 else 28
  else if month = 4 ∨ month = 6 ∨ month = 9 ∨ month = 11 then 30
  else 31

/-- Embedding of `clientCAPI._create_url`: the `string.Template`
substitution rendering each `$field` with Python `str`, i.e. each
integer in non-zero-padded decimal. -/
def create_url (metro_id : Nat) (start_date end_date : Date) (page : Nat) : String :=
  "metro-areas/" ++ toString metro_id ++
  "?utf8=%E2%9C%93&filters%5BminDate%5D=" ++
  toString start_date.month ++ "%2F" ++ toString start_date.day ++ "%2F" ++
  toString start_date.year ++
  "&filters%5BmaxDate%5D=" ++
  toString end_date.month ++ "%2F" ++ toString end_date.day ++ "%2F" ++
  toString end_date.year ++
  "&page=" ++ toString page ++ "#metro-area-calendar"

/-- One item of `spotify.search(q, type='artist', limit=50)['artists']['items']`:
the fields the script reads. -/
structure Artist where
  name : String
  uri : String

/-- The external collaborators of the script: the HTTP layer (keyed by
the relative URL; the `base_url` prefix of `requests.get` is absorbed
into the closure), BeautifulSoup parsing of a body into a node tree,
and the Spotify artist search. -/
structure Env where
  fetch : String → String
  parse : String → Node
  search : String → List Artist

/-- State observed and mutated by `_request`: the shelve database
`'database'` plus two instrumentation counters — `reqCount` counts
`_request` invocations, `fetchCount` counts `requests.get` network
calls. -/
structure ReqState where
  db : List (String × String)
  reqCount : Nat
  fetchCount : Nat
deriving DecidableEq

/-- Shelve lookup: `url in db` / `db[url]` combined. -/
def lookupDb : List (String × String) → String → Option String
  | [], _ => none
  | (k, v) :: rest, key => if k = key then some v else lookupDb rest key

/-- Embedding of `clientCAPI._request`: look the URL up in the shelve
database; on a hit return the stored page, on a miss perform the
network fetch and return its body.  Note that the source never writes
the fetched body back into the database: both branches leave `db`
unchanged. -/
def request (fetch : String → String) (s : ReqState) (url : String) :
    String × ReqState :=
  match lookupDb s.db url with
  | some page => (page, { s with reqCount := s.reqCount + 1 })
  | none =>
      (fetch url,
       { s with reqCount := s.reqCount + 1, fetchCount := s.fetchCount + 1 })

/-- The body `_request` returns for a URL, as a pure function of the
database contents and the fetch function. -/
def bodyAt (fetch : String → String) (db : List (String × String))
    (url : String) : String :=
  match lookupDb db url with
  | some page => page
  | none => fetch url

/-- The sentinel substring of `_is_last_page`. -/
def noResultsSentinel : String := "Your search returned no results"

/-- The `for tag in soup.find_all('p'): if ...: return True` loop of
`_is_last_page`, with the implicit `return None` fall-through rendered
as `false` (Python truthiness of `None`). -/
def lastPageLoop : List Node → Bool
  | [] => false
  | t :: ts =>
      if strContainsSub t.getText noResultsSentinel then true
      else lastPageLoop ts

/-- Embedding of `clientCAPI._is_last_page`: parse the body and scan
every `p` element for the no-results sentinel substring. -/
def is_last_page (parse : String → Node) (page : String) : Bool :=
  lastPageLoop ((parse page).findAllTag "p")

/-- Embedding of `clientCAPI._get_metro_area_page`: construct the URL,
fetch the body through `_request`, and replace it by `None` when it is
recognized as the last page. -/
def get_metro_area_page (env : Env) (s : ReqState) (metro_id : Nat)
    (start_date end_date : Date) (index : Nat) :
    Option String × ReqState :=
  let url := create_url metro_id start_date end_date index
  let pr := request env.fetch s url
  (if is_last_page env.parse pr.1 then none else some pr.1, pr.2)

/-- The `for i in range(1, 31)` loop of `_get_metro_area_pages`: `i` is
the current index, the `Nat` argument the number of remaining
iterations.  The loop breaks as soon as `page` is falsy, i.e. `None`
(last page) or the empty string. -/
def pagesLoop (env : Env) (metro_id : Nat) (start_date end_date : Date) :
    Nat → Nat → ReqState → List String × ReqState
  | _, 0, s => ([], s)
  | i, fuel + 1, s =>
      let pr := get_metro_area_page env s metro_id start_date end_date i
      match pr.1 with
      | none => ([], pr.2)
      | some page =>
          if page = "" then ([], pr.2)
          else
            let rest := pagesLoop env metro_id start_date end_date (i + 1) fuel pr.2
            (page :: rest.1, rest.2)

/-- Embedding of `clientCAPI._get_metro_area_pages`: scan pages 1..30,
collecting bodies until the first falsy page. -/
def get_metro_area_pages (env : Env) (s : ReqState) (metro_id : Nat)
    (start_date end_date : Date) : List String × ReqState :=
  pagesLoop env metro_id start_date end_date 1 30 s

/-- The body the scan sees for page `i`, as a pure function of the
initial database (the database is never written). -/
def pageBody (env : Env) (db : List (String × String)) (metro_id : Nat)
    (start_date end_date : Date) (i : Nat) : String :=
  bodyAt env.fetch db (create_url metro_id start_date end_date i)

/-- Whether the scan continues past page `i`: the body is neither
recognized as a last page nor the empty string (Python truthiness of
the value `_get_metro_area_page` returns). -/
def pageTruthy (env : Env) (db : List (String × String)) (metro_id : Nat)
    (start_date end_date : Date) (i : Nat) : Bool :=
  !is_last_page env.parse (pageBody env db metro_id start_date end_date i) &&
  !decide (pageBody env db metro_id start_date end_date i = "")

/-- Embedding of `get_spotify_artist_uri`: search, destructure the
first item if the item list is non-empty, and return its uri exactly
when its lowercased name equals the lowercased query; otherwise the
implicit Python `return None`. -/
def get_spotify_artist_uri (search : String → List Artist)
    (concert : String) : Option String :=
  match search concert with
  | [] => none
  | artist :: _ =>
      if pyLower artist.name = pyLower concert then some artist.uri else none

/-- The accumulation loop of `get_spotify_artist_uris`: `uri` is
appended only when truthy (`if uri:`), i.e. a non-`None`, non-empty
string. -/
def collectUris (search : String → List Artist) : List String → List String
  | [] => []
  | concert :: rest =>
      match get_spotify_artist_uri search concert with
      | none => collectUris search rest
      | some uri =>
          if uri = "" then collectUris search rest
          else uri :: collectUris search rest

/-- Embedding of Python `list(set(l))` for a list of strings: an
order-unspecified duplicate-free list of the same elements, modelled by
`List.dedup`. -/
def pySetList (l : List String) : List String := l.dedup

/-- Embedding of `get_spotify_artist_uris`: resolve each concert name,
keep the truthy uris, and pass the result through `list(set(...))`. -/
def get_spotify_artist_uris (search : String → List Artist)
    (concerts : List String) : List String :=
  pySetList (collectUris search concerts)

mutual

/-- Each `strong` element of a subtree paired with its ancestor chain
(nearest ancestor first), in document order.  This realizes both
`find_all('strong')` and the `strong.parent.…` chains of the source. -/
def Node.strongsAnc (anc : List Node) : Node → List (Node × List Node)
  | .text _ => []
  | .elem t a cs =>
      (if t = "strong" then [(Node.elem t a cs, anc)] else []) ++
      Node.strongsAncList (Node.elem t a cs :: anc) cs

/-- `Node.strongsAnc` over a forest of siblings, left to right. -/
def Node.strongsAncList (anc : List Node) : List Node → List (Node × List Node)
  | [] => []
  | c :: cs => Node.strongsAnc anc c ++ Node.strongsAncList anc cs

end

/-- BeautifulSoup `n.find('a', class_='thumb')`: the first element
descendant that is an `a` carrying `thumb` among its space-separated
classes. -/
def findThumbAnchor (n : Node) : Option Node :=
  (n.descElems.filter (fun c =>
    c.tagOf = some "a" &&
    (match c.getAttr "class" with
     | none => false
     | some v => (v.splitOn " ").contains "thumb"))).head?

/-- BeautifulSoup `soup.find(id='lineup')`: the first element
descendant whose `id` attribute is `lineup`. -/
def findLineup (root : Node) : Option Node :=
  (root.descElems.filter (fun c => c.getAttr "id" = some "lineup")).head?

/-- The body of the `for strong in strongs` loop of
`get_metro_area_concerts` for one `strong` element: the deny-list
checks, the resolution attempt, and on a miss the lineup expansion
(five `.parent` steps, `find('a', class_='thumb').get('href')`, a
`_request` of the detail page, and the anchors of its `lineup`
element).  A Python `AttributeError`/`TypeError` on the traversal
(missing fifth ancestor, missing thumb anchor or missing `href`) is an
uncaught exception, rendered as `Except.error`. -/
def processStrong (env : Env) (s : ReqState) (strong : Node)
    (anc : List Node) : Except Unit (List String) × ReqState :=
  let concert := pyStr strong.nodeString
  if concert = "Outdoor" then (.ok [], s)
  else if concert = "Roskilde Festival 2024" then (.ok [], s)
  else if concert = "Copenhell 2024" then (.ok [], s)
  else if truthyOptStr (get_spotify_artist_uri env.search concert) then
    (.ok [concert], s)
  else
    match anc.get? 4 with
    | none => (.error (), s)
    | some p5 =>
        match findThumbAnchor p5 with
        | none => (.error (), s)
        | some aEl =>
            match aEl.getAttr "href" with
            | none => (.error (), s)
            | some url =>
                let pr := request env.fetch s url
                match findLineup (env.parse pr.1) with
                | none => (.ok [], pr.2)
                | some le =>
                    (.ok ((le.findAllTag "a").map
                      (fun a => pyStr a.nodeString)), pr.2)

/-- The inner `for strong in strongs` loop: process the strongs of one
page in document order, concatenating the appended names; an exception
aborts the loop. -/
def processStrongs (env : Env) :
    List (Node × List Node) → ReqState → Except Unit (List String) × ReqState
  | [], s => (.ok [], s)
  | (st, anc) :: rest, s =>
      match processStrong env s st anc with
      | (.error e, s1) => (.error e, s1)
      | (.ok names, s1) =>
          match processStrongs env rest s1 with
          | (.error e, s2) => (.error e, s2)
          | (.ok more, s2) => (.ok (names ++ more), s2)

/-- The outer `for page in pages` loop of `get_metro_area_concerts`:
parse each body, walk its strongs in document order, concatenate. -/
def processPages (env : Env) :
    List String → ReqState → Except Unit (List String) × ReqState
  | [], s => (.ok [], s)
  | page :: rest, s =>
      match processStrongs env (Node.strongsAnc [] (env.parse page)) s with
      | (.error e, s1) => (.error e, s1)
      | (.ok names, s1) =>
          match processPages env rest s1 with
          | (.error e, s2) => (.error e, s2)
          | (.ok more, s2) => (.ok (names ++ more), s2)

/-- Bounds-checked `Array.swap`. -/
def swapN (a : Array α) (i j : Nat) : Array α :=
  if h : i < a.size then
    if h2 : j < a.size then a.swap ⟨i, h⟩ ⟨j, h2⟩ else a
  else a

/-- The Fisher–Yates loop of CPython `random.shuffle`: for `i` from
`len - 1` down to `1`, draw `j` in `[0, i]` and swap slots `i` and `j`.
The hidden state of the global random generator is modelled by the
stream `rand`, whose draw at step `i` is reduced modulo `i + 1`. -/
def fyLoop (rand : Nat → Nat) : Nat → Array α → Array α
  | 0, a => a
  | k + 1, a => fyLoop rand k (swapN a (k + 1) (rand (k + 1) % (k + 2)))

/-- Embedding of `random.shuffle` (in-place in Python, functional
here). -/
def pyShuffle (rand : Nat → Nat) (l : List α) : List α :=
  (fyLoop rand (l.length - 1) l.toArray).toList

/-- Embedding of `clientCAPI.get_metro_area_concerts`: build the month
range, scan the pages, extract the concert names page by page in
document order, and `random.shuffle` the collected list before
returning it. -/
def get_metro_area_concerts (env : Env) (rand : Nat → Nat) (s : ReqState)
    (metro_id year month : Nat) : Except Unit (List String) × ReqState :=
  let start_date : Date := ⟨1, month, year⟩
  let end_date : Date := ⟨monthrangeDays year month, month, year⟩
  let pr := get_metro_area_pages env s metro_id start_date end_date
  match processPages env pr.1 pr.2 with
  | (.error e, s1) => (.error e, s1)
  | (.ok concerts, s1) => (.ok (pyShuffle rand concerts), s1)

/-- Python slice `a[i:j]` for `i ≤ j` (clamping at the length). -/
def pySlice (a : List α) (i j : Nat) : List α := (a.drop i).take (j - i)

/-- The `while i <= len(array)` loop of `split_list_by_n`.  The source
loop diverges for `n = 0`; the fuel argument is chosen by
`split_list_by_n` large enough to cover every terminating run
(`n ≥ 1`). -/
def splitLoop (array : List α) (n : Nat) :
    Nat → Nat → Nat → List (List α)
  | 0, _, _ => []
  | fuel + 1, i, j =>
      if i ≤ array.length then
        pySlice array i (min array.length j) ::
          splitLoop array n fuel (i + n) (j + n)
      else []

/-- Embedding of `split_list_by_n`: segments of `n` elements, the last
segment the remainder. -/
def split_list_by_n (array : List α) (n : Nat) : List (List α) :=
  splitLoop array n (array.length + 2) 0 n

/-- The sequence of `tracks` arguments `create_playlist` passes to
`spotify.user_playlist_add_tracks`, one list per call (the
`for tracks100 in split_list_by_n(tracks, 100)` loop). -/
def addTracksCallBatches (tracks : List String) : List (List String) :=
  split_list_by_n tracks 100

/-- Spec-side pure counterpart of `processStrong`, written after the
spec's description of ConcertExtractor: a function of the page markup
(and of the fixed environment and cache contents), with no state
threading.  Compared with the source-side `processStrong` in the
refinement theorem for the extraction stage. -/
def extractStrong (env : Env) (db : List (String × String)) (strong : Node)
    (anc : List Node) : Except Unit (List String) :=
  let concert := pyStr strong.nodeString
  if concert = "Outdoor" then .ok []
  else if concert = "Roskilde Festival 2024" then .ok []
  else if concert = "Copenhell 2024" then .ok []
  else if truthyOptStr (get_spotify_artist_uri env.search concert) then
    .ok [concert]
  else
    match anc.get? 4 with
    | none => .error ()
    | some p5 =>
        match findThumbAnchor p5 with
        | none => .error ()
        | some aEl =>
            match aEl.getAttr "href" with
            | none => .error ()
            | some url =>
                match findLineup (env.parse (bodyAt env.fetch db url)) with
                | none => .ok []
                | some le =>
                    .ok ((le.findAllTag "a").map (fun a => pyStr a.nodeString))

/-- Pure counterpart of `processStrongs`: the names of the strongs of
one page, concatenated in document order. -/
def extractStrongs (env : Env) (db : List (String × String)) :
    List (Node × List Node) → Except Unit (List String)
  | [] => .ok []
  | (st, anc) :: rest =>
      match extractStrong env db st anc with
      | .error e => .error e
      | .ok names =>
          match extractStrongs env db rest with
          | .error e => .error e
          | .ok more => .ok (names ++ more)

/-- Pure counterpart of `processPages`: the names of a list of page
bodies, concatenated in page order, each page's names in document
order, with no deduplication. -/
def extractPages (env : Env) (db : List (String × String)) :
    List String → Except Unit (List String)
  | [] => .ok []
  | page :: rest =>
      match extractStrongs env db (Node.strongsAnc [] (env.parse page)) with
      | .error e => .error e
      | .ok names =>
          match extractPages env db rest with
          | .error e => .error e
          | .ok more => .ok (names ++ more)

/-- Empty parsed document (what `html.parser` yields for `""`). -/
def docEmpty : Node := Node.elem "[document]" [] []

/-- A listing page carrying two concert names inside `strong`
elements. -/
def docStrongAB : Node :=
  Node.elem "[document]" []
    [Node.elem "strong" [] [Node.text "A"],
     Node.elem "strong" [] [Node.text "B"]]

/-- A terminal listing page: a paragraph containing the no-results
sentinel. -/
def docNoResults : Node :=
  Node.elem "[document]" []
    [Node.elem "p" [] [Node.text "Your search returned no results."]]

/-- Concrete parse function: the body `"PAGE1"` is the two-concert
page, `"TERM"` the terminal page, anything else the empty document. -/
def parseEx (b : String) : Node :=
  if b = "PAGE1" then docStrongAB
  else if b = "TERM" then docNoResults
  else docEmpty

/-- Concrete search in which every queried name resolves exactly. -/
def searchEcho (q : String) : List Artist := [⟨q, "uri:" ++ q⟩]

/-- Concrete search resolving only the name `Muse` (to the display name
`muse`, matched case-insensitively). -/
def searchMuse (q : String) : List Artist :=
  if q = "Muse" then [⟨"muse", "uri:muse"⟩] else []

/-- Environment whose page 1 for metro area 7, May 2024, is the
two-concert page and whose every later page is terminal. -/
def envC2 : Env :=
  ⟨fun u => if u = create_url 7 ⟨1, 5, 2024⟩ ⟨31, 5, 2024⟩ 1 then "PAGE1" else "TERM",
   parseEx, searchEcho⟩

/-- Environment in which every fetch returns the empty string. -/
def envAllEmpty : Env := ⟨fun _ => "", fun _ => docEmpty, fun _ => []⟩

/-- Environment whose page 1 for metro area 7, May 2024, is the
two-concert page and whose every later page is the empty string. -/
def envC9 : Env :=
  ⟨fun u => if u = create_url 7 ⟨1, 5, 2024⟩ ⟨31, 5, 2024⟩ 1 then "PAGE1" else "",
   parseEx, searchEcho⟩

/-- Initial state: empty shelve database, zeroed call counters. -/
def state0 : ReqState := ⟨[], 0, 0⟩

/-! ### Helper lemmas -/

theorem request_fst (fetch : String → String) (s : ReqState) (url : String) :
    (request fetch s url).1 = bodyAt fetch s.db url := by
  simp only [request, bodyAt]
  cases lookupDb s.db url <;> rfl

theorem request_db (fetch : String → String) (s : ReqState) (url : String) :
    (request fetch s url).2.db = s.db := by
  simp only [request]
  cases lookupDb s.db url <;> rfl

theorem request_reqCount (fetch : String → String) (s : ReqState) (url : String) :
    (request fetch s url).2.reqCount = s.reqCount + 1 := by
  simp only [request]
  cases lookupDb s.db url <;> rfl

theorem pagesLoop_spec (env : Env) (metro_id : Nat) (sd ed : Date) :
    ∀ (fuel i : Nat) (s : ReqState),
      (pagesLoop env metro_id sd ed i fuel s).1 =
        ((List.range' i fuel).takeWhile
            (fun k => pageTruthy env s.db metro_id sd ed k)).map
          (pageBody env s.db metro_id sd ed) ∧
      (pagesLoop env metro_id sd ed i fuel s).2.db = s.db ∧
      (pagesLoop env metro_id sd ed i fuel s).2.reqCount ≤ s.reqCount + fuel := by
  intro fuel
  induction fuel with
  | zero => intro i s; simp [pagesLoop]
  | succ fuel ih =>
      intro i s
      have hb : (request env.fetch s (create_url metro_id sd ed i)).1 =
          pageBody env s.db metro_id sd ed i := request_fst ..
      have hdb : (request env.fetch s (create_url metro_id sd ed i)).2.db = s.db :=
        request_db ..
      have hrc : (request env.fetch s (create_url metro_id sd ed i)).2.reqCount =
          s.reqCount + 1 := request_reqCount ..
      simp only [pagesLoop, get_metro_area_page, List.range'_succ,
        List.takeWhile_cons, hb]
      by_cases hlast : is_last_page env.parse (pageBody env s.db metro_id sd ed i) = true
      · have hpt : pageTruthy env s.db metro_id sd ed i = false := by
          simp [pageTruthy, hlast]
        refine ⟨?_, ?_, ?_⟩
        · simp [hlast, hpt]
        · simp [hlast, hdb]
        · simp only [hlast, if_true, hrc]
          omega
      · have hlast' : is_last_page env.parse (pageBody env s.db metro_id sd ed i) = false := by
          simpa using hlast
        by_cases hemp : pageBody env s.db metro_id sd ed i = ""
        · have hpt : pageTruthy env s.db metro_id sd ed i = false := by
            simp [pageTruthy, hemp]
          have hlast2 : is_last_page env.parse "" = false := hemp ▸ hlast'
          refine ⟨?_, ?_, ?_⟩
          · simp [hlast2, hpt, hemp]
          · simp [hlast2, hemp, hdb]
          · simp [hlast2, hemp, hrc]
        · have hpt : pageTruthy env s.db metro_id sd ed i = true := by
            simp [pageTruthy, hlast', hemp]
          obtain ⟨ih1, ih2, ih3⟩ :=
            ih (i + 1) (request env.fetch s (create_url metro_id sd ed i)).2
          simp only [hdb] at ih1 ih2 ih3
          refine ⟨?_, ?_, ?_⟩
          · simp [hlast', hpt, hemp, ih1]
          · simp [hlast', hemp, ih2, hdb]
          · simp [hlast', hemp]
            omega

theorem get_metro_area_pages_fst (env : Env) (s : ReqState) (metro_id : Nat)
    (sd ed : Date) :
    (get_metro_area_pages env s metro_id sd ed).1 =
      ((List.range' 1 30).takeWhile
          (fun k => pageTruthy env s.db metro_id sd ed k)).map
        (pageBody env s.db metro_id sd ed) :=
  (pagesLoop_spec env metro_id sd ed 30 1 s).1

theorem get_metro_area_pages_db (env : Env) (s : ReqState) (metro_id : Nat)
    (sd ed : Date) :
    (get_metro_area_pages env s metro_id sd ed).2.db = s.db :=
  (pagesLoop_spec env metro_id sd ed 30 1 s).2.1

theorem get_metro_area_pages_reqCount (env : Env) (s : ReqState)
    (metro_id : Nat) (sd ed : Date) :
    (get_metro_area_pages env s metro_id sd ed).2.reqCount ≤ s.reqCount + 30 :=
  (pagesLoop_spec env metro_id sd ed 30 1 s).2.2

theorem takeWhile_length_eq_all {α : Type} (p : α → Bool) :
    ∀ l : List α, (l.takeWhile p).length = l.length → ∀ x ∈ l, p x = true := by
  intro l
  induction l with
  | nil => intro _ x hx; cases hx
  | cons a l ih =>
      intro hlen x hx
      by_cases hpa : p a = true
      · simp only [List.takeWhile_cons, hpa, if_true, List.length_cons,
          Nat.succ.injEq] at hlen
        rcases List.mem_cons.mp hx with rfl | hx2
        · exact hpa
        · exact ih hlen x hx2
      · simp only [List.takeWhile_cons, hpa, if_false] at hlen
        simp at hlen

theorem takeWhile_range'_stop (p : Nat → Bool) :
    ∀ (n a i : Nat), a ≤ i → i < a + n →
      (∀ j, a ≤ j → j < i → p j = true) → p i = false →
      (List.range' a n).takeWhile p = List.range' a (i - a) := by
  intro n
  induction n with
  | zero => intro a i h1 h2; omega
  | succ n ih =>
      intro a i h1 h2 hall hi
      rcases Nat.eq_or_lt_of_le h1 with rfl | hlt
      · simp [List.range'_succ, List.takeWhile_cons, hi]
      · have hpa : p a = true := hall a le_rfl hlt
        have : (List.range' (a + 1) n).takeWhile p = List.range' (a + 1) (i - (a + 1)) :=
          ih (a + 1) i hlt (by omega) (fun j hj1 hj2 => hall j (by omega) hj2) hi
        rw [List.range'_succ, List.takeWhile_cons, hpa]
        simp only [if_true, this]
        have h3 : i - a = (i - (a + 1)) + 1 := by omega
        rw [h3, List.range'_succ]

theorem processStrong_spec (env : Env) (s : ReqState) (st : Node)
    (anc : List Node) :
    (processStrong env s st anc).1 = extractStrong env s.db st anc ∧
    (processStrong env s st anc).2.db = s.db := by
  unfold processStrong extractStrong
  simp only [request_fst]
  repeat' split
  all_goals simp_all [request_db]

theorem processStrongs_spec (env : Env) :
    ∀ (l : List (Node × List Node)) (s : ReqState),
      (processStrongs env l s).1 = extractStrongs env s.db l ∧
      (processStrongs env l s).2.db = s.db := by
  intro l
  induction l with
  | nil => intro s; exact ⟨rfl, rfl⟩
  | cons hd tl ih =>
      intro s
      obtain ⟨st, anc⟩ := hd
      obtain ⟨h1, h2⟩ := processStrong_spec env s st anc
      obtain ⟨ih1, ih2⟩ := ih (processStrong env s st anc).2
      rw [h2] at ih1 ih2
      simp only [processStrongs, extractStrongs]
      rcases hpr : processStrong env s st anc with ⟨a, s1⟩
      rw [hpr] at h1 h2 ih1 ih2
      simp only at h1 h2 ih1 ih2
      rw [← h1]
      cases a with
      | error e => simp [h2]
      | ok names =>
          dsimp only
          rw [← ih1]
          rcases hq : processStrongs env tl s1 with ⟨b, s2⟩
          rw [hq] at ih2
          simp only at ih2
          cases b with
          | error e => simp [ih2]
          | ok more => simp [ih2]

theorem processPages_spec (env : Env) :
    ∀ (pages : List String) (s : ReqState),
      (processPages env pages s).1 = extractPages env s.db pages ∧
      (processPages env pages s).2.db = s.db := by
  intro pages
  induction pages with
  | nil => intro s; exact ⟨rfl, rfl⟩
  | cons page rest ih =>
      intro s
      obtain ⟨h1, h2⟩ :=
        processStrongs_spec env (Node.strongsAnc [] (env.parse page)) s
      obtain ⟨ih1, ih2⟩ :=
        ih (processStrongs env (Node.strongsAnc [] (env.parse page)) s).2
      rw [h2] at ih1 ih2
      simp only [processPages, extractPages]
      rcases hpr : processStrongs env (Node.strongsAnc [] (env.parse page)) s
        with ⟨a, s1⟩
      rw [hpr] at h1 h2 ih1 ih2
      simp only at h1 h2 ih1 ih2
      rw [← h1]
      cases a with
      | error e => simp [h2]
      | ok names =>
          dsimp only
          rw [← ih1]
          rcases hq : processPages env rest s1 with ⟨b, s2⟩
          rw [hq] at ih2
          simp only at ih2
          cases b with
          | error e => simp [ih2]
          | ok more => simp [ih2]

theorem pySlice_take (a : List α) (n i : Nat) (h : i ≤ a.length) :
    pySlice a i (min a.length (i + n)) = (a.drop i).take n := by
  unfold pySlice
  rcases le_total (i + n) a.length with hle | hge
  · have hmin : min a.length (i + n) = i + n := by omega
    rw [hmin]
    congr 1
    omega
  · have hmin : min a.length (i + n) = a.length := by omega
    rw [hmin]
    rw [List.take_of_length_le, List.take_of_length_le]
    · rw [List.length_drop]; omega
    · rw [List.length_drop]

theorem splitLoop_flatten (a : List α) (n : Nat) (hn : 1 ≤ n) :
    ∀ (fuel i : Nat), a.length + 1 ≤ i + fuel →
      (splitLoop a n fuel i (i + n)).flatten = a.drop i := by
  intro fuel
  induction fuel with
  | zero =>
      intro i h
      rw [List.drop_eq_nil_of_le (by omega)]
      rfl
  | succ fuel ih =>
      intro i h
      by_cases hi : i ≤ a.length
      · simp only [splitLoop, hi, if_true, List.flatten_cons]
        rw [pySlice_take a n i hi, ih (i + n) (by omega)]
        rw [← List.drop_drop]
        exact List.take_append_drop n (a.drop i)
      · simp only [splitLoop, hi, if_false]
        rw [List.drop_eq_nil_of_le (by omega)]
        rfl

theorem splitLoop_seg_le (a : List α) (n : Nat) :
    ∀ (fuel i : Nat) (seg : List α),
      seg ∈ splitLoop a n fuel i (i + n) → seg.length ≤ n := by
  intro fuel
  induction fuel with
  | zero => intro i seg hseg; cases hseg
  | succ fuel ih =>
      intro i seg hseg
      by_cases hi : i ≤ a.length
      · simp only [splitLoop, hi, if_true] at hseg
        rcases List.mem_cons.mp hseg with rfl | hseg2
        · rw [pySlice_take a n i hi, List.length_take]
          omega
        · exact ih (i + n) seg hseg2
      · simp [splitLoop, hi] at hseg

theorem splitLoop_getLast_empty (a : List α) (n : Nat) (hn : 1 ≤ n) :
    ∀ (fuel i : Nat), a.length + 1 ≤ i + fuel → i ≤ a.length →
      n ∣ (a.length - i) →
      (splitLoop a n fuel i (i + n)).getLast? = some [] := by
  intro fuel
  induction fuel with
  | zero => intro i h hi; omega
  | succ fuel ih =>
      intro i h hi hdvd
      simp only [splitLoop, hi, if_true]
      rcases Nat.eq_or_lt_of_le hi with heq | hlt
      · have hrest : splitLoop a n fuel (i + n) (i + n + n) = [] := by
          cases fuel with
          | zero => rfl
          | succ f => simp [splitLoop, show ¬ (i + n ≤ a.length) by omega]
        have hseg : pySlice a i (min a.length (i + n)) = [] := by
          rw [pySlice_take a n i hi, List.drop_eq_nil_of_le (by omega)]
          exact List.take_nil
        rw [hrest, hseg]
        rfl
      · have hle : i + n ≤ a.length := by
          have := Nat.le_of_dvd (by omega) hdvd
          omega
        have hfuel : 1 ≤ fuel := by omega
        have hne : splitLoop a n fuel (i + n) (i + n + n) ≠ [] := by
          cases fuel with
          | zero => omega
          | succ f => simp [splitLoop, hle]
        have htail := ih (i + n) (by omega) hle
          (by
            have : a.length - (i + n) = a.length - i - n := by omega
            rw [this]
            exact Nat.dvd_sub' hdvd (dvd_refl n))
        obtain ⟨r, rs, hrr⟩ := List.exists_cons_of_ne_nil hne
        rw [hrr] at htail ⊢
        rw [List.getLast?_cons_cons]
        exact htail

theorem split_list_by_n_flatten (l : List α) (n : Nat) (hn : 1 ≤ n) :
    (split_list_by_n l n).flatten = l := by
  have := splitLoop_flatten l n hn (l.length + 2) 0 (by omega)
  simpa [split_list_by_n] using this

theorem split_list_by_n_seg_le (l : List α) (n : Nat) (seg : List α)
    (hseg : seg ∈ split_list_by_n l n) : seg.length ≤ n := by
  apply splitLoop_seg_le l n (l.length + 2) 0 seg
  simpa [split_list_by_n] using hseg

theorem split_list_by_n_getLast_empty (l : List α) (n : Nat) (hn : 1 ≤ n)
    (hdvd : n ∣ l.length) : (split_list_by_n l n).getLast? = some [] := by
  have := splitLoop_getLast_empty l n hn (l.length + 2) 0 (by omega)
    (by omega) (by simpa using hdvd)
  simpa [split_list_by_n] using this

theorem lastPageLoop_any (l : List Node) :
    lastPageLoop l = l.any (fun t => strContainsSub t.getText noResultsSentinel) := by
  induction l with
  | nil => rfl
  | cons t ts ih =>
      simp only [lastPageLoop, List.any_cons]
      by_cases ht : strContainsSub t.getText noResultsSentinel = true
      · simp [ht]
      · simp [ht, ih]

/-! ### Claim theorems -/

/-- C1 (code-bug evidence): `_request` looks the key up in the cache
first, but on a miss it does not store the fetched body.  Starting from
the empty shelve database, requesting `"u"` returns the fetched body
and leaves the database empty, and a second request for the same key
performs a second network fetch (`fetchCount = 2`) instead of returning
a stored value — against the claimed store-on-miss, hit-on-reread
discipline. -/
theorem claim_C1_code_bug :
    (request (fun _ => "BODY") state0 "u").1 = "BODY" ∧
    (request (fun _ => "BODY") state0 "u").2.db = [] ∧
    (request (fun _ => "BODY")
      (request (fun _ => "BODY") state0 "u").2 "u").2.fetchCount = 2 :=
  ⟨rfl, rfl, rfl⟩

/-- C2 (counterexample): two runs of `get_metro_area_concerts` on
identical pages, cache and query, differing only in the hidden state of
the random generator, return the two extracted names in two different
orders, refuting both that the returned list is a pure function of the
page body and that it preserves document order. -/
theorem claim_C2_counterexample :
    (get_metro_area_concerts envC2 (fun _ => 0) state0 7 2024 5).1 =
      Except.ok ["B", "A"] ∧
    (get_metro_area_concerts envC2 (fun _ => 1) state0 7 2024 5).1 =
      Except.ok ["A", "B"] :=
  ⟨rfl, rfl⟩

/-- C2 (amended): the concert names are collected page by page in page
order and, within each page, in document order, with no deduplication:
this ordered collection is the pure function `extractPages` of the page
bodies, the fixed environment and the initial cache contents; the value
`get_metro_area_concerts` returns is exactly that ordered collection
passed through the `random.shuffle` permutation, so the returned order
additionally depends on the random generator state. -/
theorem claim_C2 (env : Env) (rand : Nat → Nat) (s : ReqState)
    (metro_id year month : Nat) :
    (get_metro_area_concerts env rand s metro_id year month).1 =
      (extractPages env s.db
          (get_metro_area_pages env s metro_id ⟨1, month, year⟩
            ⟨monthrangeDays year month, month, year⟩).1).map
        (fun names => pyShuffle rand names) := by
  have hdb := get_metro_area_pages_db env s metro_id ⟨1, month, year⟩
    ⟨monthrangeDays year month, month, year⟩
  obtain ⟨h1, _⟩ := processPages_spec env
    (get_metro_area_pages env s metro_id ⟨1, month, year⟩
      ⟨monthrangeDays year month, month, year⟩).1
    (get_metro_area_pages env s metro_id ⟨1, month, year⟩
      ⟨monthrangeDays year month, month, year⟩).2
  rw [hdb] at h1
  simp only [get_metro_area_concerts]
  rcases hp : processPages env
      (get_metro_area_pages env s metro_id ⟨1, month, year⟩
        ⟨monthrangeDays year month, month, year⟩).1
      (get_metro_area_pages env s metro_id ⟨1, month, year⟩
        ⟨monthrangeDays year month, month, year⟩).2 with ⟨b, s1⟩
  rw [hp] at h1
  simp only at h1
  rw [← h1]
  cases b with
  | error e => rfl
  | ok concerts => rfl

/-- C3 (counterexample): with every fetched body the empty string, no
page ever satisfies the last-page predicate, so the claimed stop rule
would collect pages up to the cap of 30; the scan nevertheless stops at
page 1 and returns the empty sequence. -/
theorem claim_C3_counterexample :
    is_last_page envAllEmpty.parse "" = false ∧
    pageBody envAllEmpty state0.db 1 ⟨1, 5, 2024⟩ ⟨31, 5, 2024⟩ 1 = "" ∧
    (get_metro_area_pages envAllEmpty state0 1 ⟨1, 5, 2024⟩ ⟨31, 5, 2024⟩).1 = [] ∧
    ¬ (get_metro_area_pages envAllEmpty state0 1
        ⟨1, 5, 2024⟩ ⟨31, 5, 2024⟩).1.length = 30 :=
  ⟨rfl, rfl, rfl, by decide⟩

/-- C3 (amended): the scan requests pages in increasing index order
from 1, makes at most 30 `_request` calls, and returns exactly the
bodies of the longest truthy prefix of pages 1..30 — stopping at the
first page that satisfies the last-page predicate or is the empty
string, and excluding that page — so a terminal-or-empty first page
yields the empty sequence, and the returned length is below 30 unless
page 30 itself is truthy. -/
theorem claim_C3 (env : Env) (s : ReqState) (metro_id : Nat) (sd ed : Date) :
    (get_metro_area_pages env s metro_id sd ed).1 =
      ((List.range' 1 30).takeWhile
          (fun k => pageTruthy env s.db metro_id sd ed k)).map
        (pageBody env s.db metro_id sd ed) ∧
    (get_metro_area_pages env s metro_id sd ed).1.length ≤ 30 ∧
    (get_metro_area_pages env s metro_id sd ed).2.reqCount ≤ s.reqCount + 30 ∧
    ((get_metro_area_pages env s metro_id sd ed).1.length < 30 ∨
      pageTruthy env s.db metro_id sd ed 30 = true) := by
  have hlen : (get_metro_area_pages env s metro_id sd ed).1.length ≤ 30 := by
    rw [get_metro_area_pages_fst, List.length_map]
    exact le_trans (List.takeWhile_sublist
      (fun k => pageTruthy env s.db metro_id sd ed k)).length_le (by decide)
  refine ⟨get_metro_area_pages_fst env s metro_id sd ed, hlen,
    get_metro_area_pages_reqCount env s metro_id sd ed, ?_⟩
  by_cases h30 : (get_metro_area_pages env s metro_id sd ed).1.length = 30
  · right
    rw [get_metro_area_pages_fst, List.length_map] at h30
    have hall := takeWhile_length_eq_all
      (fun k => pageTruthy env s.db metro_id sd ed k) (List.range' 1 30)
      (by rw [h30]; decide)
    exact hall 30 (by decide)
  · left
    omega

/-- C4: the last-page predicate returns true exactly when some
paragraph element of the parsed body has text containing the literal
no-results sentinel as a case-sensitive substring, and false for every
body lacking such a paragraph — including bodies whose parse contains
no `p` element at all. -/
theorem claim_C4 (parse : String → Node) (page : String) :
    is_last_page parse page = true ↔
      ∃ p ∈ (parse page).findAllTag "p",
        strContainsSub p.getText noResultsSentinel = true := by
  simp [is_last_page, lastPageLoop_any, List.any_eq_true]

/-- C5: `get_spotify_artist_uris` passes the accumulated uris through
`list(set(...))`, so the artist-identity list handed on to top-track
selection contains no repeated identity, whatever the concert-name list
(with any duplication across concerts, pages or metro areas) and
whatever the search behaviour. -/
theorem claim_C5 (search : String → List Artist) (concerts : List String) :
    (get_spotify_artist_uris search concerts).Nodup := by
  unfold get_spotify_artist_uris pySetList
  exact List.nodup_dedup _

/-- C6: `split_list_by_n` with `n = 100` yields segments whose
concatenation is the input list and each of whose lengths is at most
100; every batch `create_playlist` passes to a playlist track-append
call is such a segment, and a list of 250 track identities is split
into batches of sizes 100, 100 and 50. -/
theorem claim_C6 :
    (∀ tracks : List String, (split_list_by_n tracks 100).flatten = tracks) ∧
    (∀ tracks : List String, ∀ seg ∈ addTracksCallBatches tracks,
      seg.length ≤ 100) ∧
    (addTracksCallBatches (List.replicate 250 "t")).map List.length =
      [100, 100, 50] := by
  refine ⟨fun tracks => split_list_by_n_flatten tracks 100 (by omega),
    fun tracks seg hseg => split_list_by_n_seg_le tracks 100 seg hseg, ?_⟩
  decide

/-- C6 (witness): the single batch of a two-track list respects the
100-track cap. -/
theorem claim_C6_witness : (["x", "y"] : List String).length ≤ 100 :=
  claim_C6.2.1 ["x", "y"] ["x", "y"] (by decide)

/-- C7: URL construction is deterministic — equal metro area, start
date, end date and page index give byte-identical strings — and a
concrete rendering shows the non-zero-padded decimal day, month and
year fields (`5%2F1%2F2024`, not `05%2F01%2F2024`). -/
theorem claim_C7 :
    (∀ (m1 : Nat) (sd1 ed1 : Date) (p1 : Nat) (m2 : Nat) (sd2 ed2 : Date)
        (p2 : Nat), m1 = m2 → sd1 = sd2 → ed1 = ed2 → p1 = p2 →
      create_url m1 sd1 ed1 p1 = create_url m2 sd2 ed2 p2) ∧
    create_url 104761 ⟨1, 5, 2024⟩ ⟨31, 5, 2024⟩ 2 =
      "metro-areas/104761?utf8=%E2%9C%93&filters%5BminDate%5D=5%2F1%2F2024&filters%5BmaxDate%5D=5%2F31%2F2024&page=2#metro-area-calendar" := by
  refine ⟨?_, rfl⟩
  rintro m1 sd1 ed1 p1 m2 sd2 ed2 p2 rfl rfl rfl rfl
  rfl

/-- C7 (witness): determinism applied at one concrete input. -/
theorem claim_C7_witness :
    create_url 7 ⟨1, 6, 2025⟩ ⟨30, 6, 2025⟩ 1 =
      create_url 7 ⟨1, 6, 2025⟩ ⟨30, 6, 2025⟩ 1 :=
  claim_C7.1 7 ⟨1, 6, 2025⟩ ⟨30, 6, 2025⟩ 1 7 ⟨1, 6, 2025⟩ ⟨30, 6, 2025⟩ 1
    rfl rfl rfl rfl

/-- C8: `get_spotify_artist_uri` returns an identity only when the
first search item's display name equals the searched name under
case-insensitive comparison, and on a resolution miss (`None`) the name
is silently skipped by `get_spotify_artist_uris`: it contributes no
output entry and raises no error. -/
theorem claim_C8 :
    (∀ (search : String → List Artist) (concert uri : String),
      get_spotify_artist_uri search concert = some uri →
      ∃ (a : Artist) (rest : List Artist), search concert = a :: rest ∧
        pyLower a.name = pyLower concert ∧ uri = a.uri) ∧
    (∀ (search : String → List Artist) (c : String) (cs : List String),
      get_spotify_artist_uri search c = none →
      get_spotify_artist_uris search (c :: cs) =
        get_spotify_artist_uris search cs) := by
  constructor
  · intro search concert uri h
    unfold get_spotify_artist_uri at h
    split at h
    · cases h
    · rename_i a rest hs
      split at h
      · rename_i hname
        exact ⟨a, rest, hs, hname, (Option.some.inj h).symm⟩
      · cases h
  · intro search c cs h
    simp [get_spotify_artist_uris, collectUris, h]

/-- C8 (witness): `Muse` resolves to the display name `muse`
case-insensitively, and the unresolvable name `Nope` is skipped without
affecting the result. -/
theorem claim_C8_witness :
    (∃ (a : Artist) (rest : List Artist), searchMuse "Muse" = a :: rest ∧
      pyLower a.name = pyLower "Muse" ∧ "uri:muse" = a.uri) ∧
    get_spotify_artist_uris searchMuse ["Nope", "Muse"] =
      get_spotify_artist_uris searchMuse ["Muse"] :=
  ⟨claim_C8.1 searchMuse "Muse" "uri:muse" (by decide),
   claim_C8.2 searchMuse "Nope" ["Muse"] (by decide)⟩

/-- C9: if the body fetched for page `i` of a scan is the empty string
while all earlier pages are truthy, the scan stops at page `i` and
excludes it — returning exactly the bodies of pages 1..i-1 — just as it
would for a last page, even though the last-page predicate is false for
the empty body. -/
theorem claim_C9 (env : Env) (s : ReqState) (metro_id : Nat) (sd ed : Date)
    (i : Nat) (h1 : 1 ≤ i) (h30 : i ≤ 30)
    (hemp : pageBody env s.db metro_id sd ed i = "")
    (hfalse : is_last_page env.parse "" = false)
    (hprev : ∀ j, 1 ≤ j → j < i → pageTruthy env s.db metro_id sd ed j = true) :
    (get_metro_area_pages env s metro_id sd ed).1 =
      (List.range' 1 (i - 1)).map (pageBody env s.db metro_id sd ed) := by
  rw [get_metro_area_pages_fst]
  have hstop : pageTruthy env s.db metro_id sd ed i = false := by
    simp [pageTruthy, hemp]
  rw [takeWhile_range'_stop (fun k => pageTruthy env s.db metro_id sd ed k)
    30 1 i h1 (by omega) (fun j hj1 hj2 => hprev j hj1 hj2) hstop]

/-- C9 (witness): a scan whose page 1 is a normal listing body and
whose page 2 comes back as the empty string returns exactly page 1. -/
theorem claim_C9_witness :
    (get_metro_area_pages envC9 state0 7 ⟨1, 5, 2024⟩ ⟨31, 5, 2024⟩).1 =
      ["PAGE1"] := by
  have h := claim_C9 envC9 state0 7 ⟨1, 5, 2024⟩ ⟨31, 5, 2024⟩ 2
    (by decide) (by decide) (by decide) (by decide)
    (fun j hj1 hj2 => by
      have hj : j = 1 := by omega
      subst hj
      decide)
  rw [h]
  decide

/-- C10: for every list whose length is a multiple of `n` (the empty
list included), `split_list_by_n` ends its result with one empty
segment, so when the track count is a multiple of 100 `create_playlist`
issues a playlist track-append call whose batch is empty. -/
theorem claim_C10 :
    (∀ (l : List String) (n : Nat), 1 ≤ n → n ∣ l.length →
      (split_list_by_n l n).getLast? = some []) ∧
    (∀ tracks : List String, 100 ∣ tracks.length →
      [] ∈ addTracksCallBatches tracks) := by
  constructor
  · intro l n hn hdvd
    exact split_list_by_n_getLast_empty l n hn hdvd
  · intro tracks hdvd
    have h := split_list_by_n_getLast_empty tracks 100 (by omega) hdvd
    have hmem : ([] : List String) ∈ (addTracksCallBatches tracks).getLast? := by
      rw [addTracksCallBatches, h]
      rfl
    obtain ⟨hne, heq⟩ := List.mem_getLast?_eq_getLast hmem
    rw [heq]
    exact List.getLast_mem hne

/-- C10 (witness): the empty list splits into a single empty batch, and
the empty batch reaches the append-call sequence. -/
theorem claim_C10_witness :
    (split_list_by_n ([] : List String) 1).getLast? = some [] ∧
    ([] : List String) ∈ addTracksCallBatches [] :=
  ⟨claim_C10.1 [] 1 (by decide) (by decide),
   claim_C10.2 [] (by decide)⟩

end LocalNextMonth
